import Mathlib

/-!
Shallow embedding of the goal-path memory core of the grid pathfinding agent
(`src/main.py`): clamped grid movement, the per-goal path cache, the random-walk
discovery trial, the replay-with-fallback mover, the reset, and the bounded
retry loop.  Randomness is modelled by explicit streams of draws passed in as
arguments; the mutable module-level state of the Python source is threaded
explicitly.
-/

/-- The four movement directions (`random_direction` draws from this set). -/
inductive Dir where
  | up
  | down
  | left
  | right
deriving DecidableEq, Repr

/-- A grid coordinate, Python's `[x, y]` pairs of ints. -/
abbrev Pos := Int × Int

/-- `GRID_SIZE = 10` from the source. -/
def gridSize : Int := 10

/-- `move_position`: moves one cell in the given direction when the move stays
within grid bounds, otherwise leaves the position unchanged (the elif chain of
lines 91-98 of `src/main.py`). -/
def movePosition (pos : Pos) (d : Dir) : Pos :=
  match d with
  | .up => if pos.2 > 0 then (pos.1, pos.2 - 1) else pos
  | .down => if pos.2 < gridSize - 1 then (pos.1, pos.2 + 1) else pos
  | .left => if pos.1 > 0 then (pos.1 - 1, pos.2) else pos
  | .right => if pos.1 < gridSize - 1 then (pos.1 + 1, pos.2) else pos

/-- The `goal_paths` dictionary: a map from goal coordinate to stored path. -/
abbrev Cache := Pos → Option (List Dir)

/-- The initial empty `goal_paths` dictionary. -/
def emptyCache : Cache := fun _ => none

/-- The cache update of lines 115-117 of `src/main.py`:
`if key not in goal_paths or len(path) < len(goal_paths[key]): goal_paths[key] = path.copy()`. -/
def recordPath (c : Cache) (g : Pos) (p : List Dir) : Cache :=
  match c g with
  | none => fun k => if k = g then some p else c k
  | some q => if p.length < q.length then (fun k => if k = g then some p else c k) else c

/-- The loop body of `find_successful_path` (lines 110-119): starting from
`trialPos` with the directions drawn so far in `path`, draw `dirs 0`, append it,
apply the clamped move, and stop with the accumulated path as soon as the
simulated position equals the goal; `none` when the step budget runs out. -/
def findPathAux (goalPos : Pos) : (Nat → Dir) → Nat → Pos → List Dir → Option (List Dir)
  | _, 0, _, _ => none
  | dirs, fuel + 1, trialPos, path =>
    let d := dirs 0
    let path2 := path ++ [d]
    let pos2 := movePosition trialPos d
    if pos2 = goalPos then some path2
    else findPathAux goalPos (fun n => dirs (n + 1)) fuel pos2 path2

/-- The outcome of one discovery trial of `find_successful_path` with draw
stream `dirs`: the trial path on success, `none` when the goal was not reached
within `maxSteps` (default `100` in the source). -/
def trialPath (dirs : Nat → Dir) (goalPos : Pos) (maxSteps : Nat) : Option (List Dir) :=
  findPathAux goalPos dirs maxSteps (0, 0) []

/-- `find_successful_path(goal_pos, max_steps)` as a cache transformer: runs one
random-walk trial from the origin and, when it reaches the goal, records the
trial path through the update of lines 115-117; otherwise the cache is
untouched. -/
def findSuccessfulPath (dirs : Nat → Dir) (goalPos : Pos) (maxSteps : Nat) (c : Cache) : Cache :=
  match trialPath dirs goalPos maxSteps with
  | some p => recordPath c goalPos p
  | none => c

/-- The direction-selection logic of `move_with_memory` (lines 126-135): when a
path is cached for the goal and the cursor is inside it, return the cached
direction and the incremented cursor; otherwise return the fresh random draw
and the unchanged cursor. -/
def selectDirection (c : Cache) (goal : Pos) (cursor : Nat) (rand : Dir) : Dir × Nat :=
  match c goal with
  | some best =>
    if h : cursor < best.length then (best.get ⟨cursor, h⟩, cursor + 1)
    else (rand, cursor)
  | none => (rand, cursor)

/-- The navigator state: the module-level `position` together with the
function-attribute cursor `move_with_memory.step`. -/
structure NavState where
  position : Pos
  step : Nat
deriving DecidableEq, Repr

/-- `move_with_memory` (lines 121-136), transliterated whole: consult the cache
for the current goal, pick the cached direction (advancing the cursor) when the
cursor is inside the cached path, otherwise the random draw `rand`; then apply
the chosen direction to the position with `move_position`. -/
def moveWithMemory (c : Cache) (goal : Pos) (s : NavState) (rand : Dir) : NavState :=
  match c goal with
  | some best =>
    if h : s.step < best.length then
      { position := movePosition s.position (best.get ⟨s.step, h⟩), step := s.step + 1 }
    else
      { position := movePosition s.position rand, step := s.step }
  | none => { position := movePosition s.position rand, step := s.step }

/-- The cursor after `n` successive `move_with_memory` calls with a fixed cache
and goal, starting from cursor `0`; the `n`-th call uses random draw `rands n`. -/
def cursorAfter (c : Cache) (g : Pos) (rands : Nat → Dir) : Nat → Nat
  | 0 => 0
  | n + 1 => (selectDirection c g (cursorAfter c g rands n) (rands n)).2

/-- The direction chosen by the `n`-th `move_with_memory` call (counting from
`0`) with a fixed cache and goal, starting from cursor `0`. -/
def callOutput (c : Cache) (g : Pos) (rands : Nat → Dir) (n : Nat) : Dir :=
  (selectDirection c g (cursorAfter c g rands n) (rands n)).1

/-- The navigator after `n` ticks of `move_with_memory` from the origin with
cursor `0`, with a fixed cache and goal. -/
def navAfter (c : Cache) (g : Pos) (rands : Nat → Dir) : Nat → NavState
  | 0 => { position := (0, 0), step := 0 }
  | n + 1 => moveWithMemory c g (navAfter c g rands n) (rands n)

/-- The retry loop of `ensure_path_for_goal` (lines 153-156): run a discovery
trial (attempt `i` uses draw stream `dirss i`), stop as soon as the goal has a
cache entry.  Returns the final cache together with the number of attempts
performed. -/
def ensureAux (g : Pos) : (Nat → Nat → Dir) → Nat → Cache → Cache × Nat
  | _, 0, c => (c, 0)
  | dirss, fuel + 1, c =>
    let c2 := findSuccessfulPath (dirss 0) g 100 c
    if (c2 g).isSome then (c2, 1)
    else
      let r := ensureAux g (fun n => dirss (n + 1)) fuel c2
      (r.1, r.2 + 1)

/-- `ensure_path_for_goal(goal_pos)`: up to `1000` discovery attempts (the
hard-coded `range(1000)` of the source), stopping once the goal is cached. -/
def ensurePathForGoal (dirss : Nat → Nat → Dir) (g : Pos) (c : Cache) : Cache × Nat :=
  ensureAux g dirss 1000 c

/-- The whole mutable state of the main loop: `position`, `goal`,
`move_with_memory.step`, and `goal_paths`. -/
structure SysState where
  position : Pos
  goal : Pos
  cursor : Nat
  cache : Cache

/-- `reset_position_and_goal`: position back to the origin, goal replaced by
the freshly drawn `gNew`, cursor back to `0`; the cache is untouched. -/
def resetPositionAndGoal (s : SysState) (gNew : Pos) : SysState :=
  { position := (0, 0), goal := gNew, cursor := 0, cache := s.cache }

/-- One tick of the main loop (lines 171-194, the rendering stripped): run
`move_with_memory`, then, when the new position equals the goal, reset with a
freshly drawn goal `gNew`. -/
def tick (s : SysState) (rand : Dir) (gNew : Pos) : SysState :=
  let n := moveWithMemory s.cache s.goal { position := s.position, step := s.cursor } rand
  if n.position = s.goal then
    resetPositionAndGoal { s with position := n.position, cursor := n.step } gNew
  else
    { s with position := n.position, cursor := n.step }

/-- The `ensure_path_for_goal(goal)` call of the main loop as a state
transformer: only the cache changes. -/
def ensureStep (s : SysState) (dirss : Nat → Nat → Dir) : SysState :=
  { s with cache := (ensurePathForGoal dirss s.goal s.cache).1 }

/-- States of the main loop reachable from module load (position at the origin,
cursor `0`, empty cache, any initial goal) by ticks and `ensure` calls. -/
inductive Reachable : SysState → Prop where
  | load : ∀ g : Pos, Reachable { position := (0, 0), goal := g, cursor := 0, cache := emptyCache }
  | move : ∀ s rand gNew, Reachable s → Reachable (tick s rand gNew)
  | discover : ∀ s dirss, Reachable s → Reachable (ensureStep s dirss)

/-- A cache holding exactly one entry: path `p` for goal `g` (used to state
concrete instances). -/
def cacheWith (g : Pos) (p : List Dir) : Cache :=
  fun k => if k = g then some p else none

theorem recordPath_absent (c : Cache) (g : Pos) (p : List Dir) (h : c g = none) :
    recordPath c g p g = some p := by
  unfold recordPath
  rw [h]
  simp

theorem recordPath_shorter (c : Cache) (g : Pos) (p q : List Dir) (h : c g = some q)
    (hlt : p.length < q.length) : recordPath c g p g = some p := by
  unfold recordPath
  rw [h]
  simp [hlt]

theorem recordPath_no_replace (c : Cache) (g : Pos) (p q : List Dir) (h : c g = some q)
    (hle : q.length ≤ p.length) : recordPath c g p = c := by
  unfold recordPath
  rw [h]
  have hnlt : ¬ p.length < q.length := by omega
  simp [hnlt]

theorem recordPath_other (c : Cache) (g : Pos) (p : List Dir) (k : Pos) (h : k ≠ g) :
    recordPath c g p k = c k := by
  unfold recordPath
  cases hcg : c g with
  | none => simp [h]
  | some q => by_cases hpq : p.length < q.length <;> simp [hpq, h]

theorem recordPath_self_isSome (c : Cache) (g : Pos) (p : List Dir) :
    ((recordPath c g p) g).isSome := by
  unfold recordPath
  cases hcg : c g with
  | none => simp
  | some q => by_cases hpq : p.length < q.length <;> simp [hpq, hcg]

theorem foldl_record_min (g : Pos) :
    ∀ (ps : List (List Dir)) (c : Cache) (r0 : List Dir), c g = some r0 →
      ∃ r, List.foldl (fun acc p => recordPath acc g p) c ps g = some r ∧
        (r = r0 ∨ r ∈ ps) ∧ r.length ≤ r0.length ∧ ∀ p ∈ ps, r.length ≤ p.length := by
  intro ps
  induction ps with
  | nil =>
    intro c r0 h
    exact ⟨r0, h, Or.inl rfl, le_refl _, by simp⟩
  | cons p ps ih =>
    intro c r0 h
    rw [List.foldl_cons]
    by_cases hlt : p.length < r0.length
    · obtain ⟨r, hr, hmem, hlen, hall⟩ :=
        ih (recordPath c g p) p (recordPath_shorter c g p r0 h hlt)
      refine ⟨r, hr, ?_, by omega, ?_⟩
      · rcases hmem with rfl | hm
        · exact Or.inr (List.mem_cons_self _ _)
        · exact Or.inr (List.mem_cons_of_mem _ hm)
      · intro q hq
        rcases List.mem_cons.mp hq with rfl | hq2
        · omega
        · exact hall q hq2
    · rw [recordPath_no_replace c g p r0 h (by omega)]
      obtain ⟨r, hr, hmem, hlen, hall⟩ := ih c r0 h
      refine ⟨r, hr, ?_, hlen, ?_⟩
      · rcases hmem with rfl | hm
        · exact Or.inl rfl
        · exact Or.inr (List.mem_cons_of_mem _ hm)
      · intro q hq
        rcases List.mem_cons.mp hq with rfl | hq2
        · omega
        · exact hall q hq2

/-- Claim C1: the cache update of `find_successful_path` stores a path under a
goal key only when no entry exists or the new path is strictly shorter,
otherwise the cache is unchanged; consequently, after any sequence of
recordings for a goal, the cache holds a shortest path ever recorded for it,
and a longer path recorded after a shorter one never replaces it. -/
theorem record_cache_monotonic (g : Pos) :
    (∀ (c : Cache) (p q : List Dir), c g = some q → q.length ≤ p.length →
      recordPath c g p = c) ∧
    (∀ (c : Cache) (p : List Dir), c g = none → recordPath c g p g = some p) ∧
    (∀ (c : Cache) (p q : List Dir), c g = some q → p.length < q.length →
      recordPath c g p g = some p) ∧
    (∀ (ps : List (List Dir)) (c : Cache), c g = none → ps ≠ [] →
      ∃ r, List.foldl (fun acc p => recordPath acc g p) c ps g = some r ∧
        r ∈ ps ∧ ∀ p ∈ ps, r.length ≤ p.length) := by
  refine ⟨fun c p q h hle => recordPath_no_replace c g p q h hle,
    fun c p h => recordPath_absent c g p h,
    fun c p q h hlt => recordPath_shorter c g p q h hlt,
    ?_⟩
  intro ps c hc hne
  cases ps with
  | nil => exact absurd rfl hne
  | cons p ps2 =>
    rw [List.foldl_cons]
    obtain ⟨r, hr, hmem, hlen, hall⟩ :=
      foldl_record_min g ps2 (recordPath c g p) p (recordPath_absent c g p hc)
    refine ⟨r, hr, ?_, ?_⟩
    · rcases hmem with rfl | hm
      · exact List.mem_cons_self _ _
      · exact List.mem_cons_of_mem _ hm
    · intro q hq
      rcases List.mem_cons.mp hq with rfl | hq2
      · exact hlen
      · exact hall q hq2

theorem record_cache_monotonic_witness :
    ∃ r, List.foldl (fun acc p => recordPath acc ((1 : Int), (1 : Int)) p) emptyCache
        [[Dir.up, Dir.up], [Dir.down]] ((1 : Int), (1 : Int)) = some r ∧
      r ∈ [[Dir.up, Dir.up], [Dir.down]] ∧
      ∀ p ∈ [[Dir.up, Dir.up], [Dir.down]], r.length ≤ p.length :=
  (record_cache_monotonic (1, 1)).2.2.2 [[Dir.up, Dir.up], [Dir.down]] emptyCache rfl
    (by simp)

/-- Claim C5: for any in-bounds position and any direction, `move_position`
keeps the position in bounds, and at a grid edge the outward direction leaves
the position unchanged. -/
theorem move_position_bounds (x y : Int) (d : Dir) (hx0 : 0 ≤ x) (hx1 : x < gridSize)
    (hy0 : 0 ≤ y) (hy1 : y < gridSize) :
    (0 ≤ (movePosition (x, y) d).1 ∧ (movePosition (x, y) d).1 < gridSize ∧
      0 ≤ (movePosition (x, y) d).2 ∧ (movePosition (x, y) d).2 < gridSize) ∧
    (y = 0 → movePosition (x, y) Dir.up = (x, y)) ∧
    (y = gridSize - 1 → movePosition (x, y) Dir.down = (x, y)) ∧
    (x = 0 → movePosition (x, y) Dir.left = (x, y)) ∧
    (x = gridSize - 1 → movePosition (x, y) Dir.right = (x, y)) := by
  unfold gridSize at *
  refine ⟨?_, ?_, ?_, ?_, ?_⟩
  · cases d <;> simp only [movePosition, gridSize] <;> split_ifs <;> constructorm* _ ∧ _ <;>
      simp <;> omega
  · intro h
    simp only [movePosition]
    rw [if_neg (by omega)]
  · intro h
    simp only [movePosition, gridSize]
    rw [if_neg (by omega)]
  · intro h
    simp only [movePosition]
    rw [if_neg (by omega)]
  · intro h
    simp only [movePosition, gridSize]
    rw [if_neg (by omega)]

theorem move_position_bounds_witness :
    (0 ≤ (movePosition (0, 0) Dir.up).1 ∧ (movePosition (0, 0) Dir.up).1 < gridSize ∧
      0 ≤ (movePosition (0, 0) Dir.up).2 ∧ (movePosition (0, 0) Dir.up).2 < gridSize) ∧
    movePosition ((0 : Int), (0 : Int)) Dir.up = (0, 0) :=
  ⟨(move_position_bounds 0 0 Dir.up (by decide) (by decide) (by decide) (by decide)).1,
    (move_position_bounds 0 0 Dir.up (by decide) (by decide) (by decide) (by decide)).2.1 rfl⟩

/-- Claim C9: `reset_position_and_goal` puts the position at the origin and
the replay cursor at 0 (and installs the fresh goal, leaving the cache alone),
whatever the prior state was. -/
theorem reset_position_and_goal_correct (s : SysState) (gNew : Pos) :
    (resetPositionAndGoal s gNew).position = (0, 0) ∧
    (resetPositionAndGoal s gNew).cursor = 0 ∧
    (resetPositionAndGoal s gNew).goal = gNew ∧
    (resetPositionAndGoal s gNew).cache = s.cache :=
  ⟨rfl, rfl, rfl, rfl⟩

/-- Claim C8: `move_with_memory` factors as direction selection followed by the
separate clamped-move application: the selection (`selectDirection`, which
never reads the position) determines the direction and the new cursor, and the
position changes only by `move_position` applied to the selected direction. -/
theorem move_with_memory_frame (c : Cache) (g : Pos) (s : NavState) (rand : Dir) :
    moveWithMemory c g s rand =
      { position := movePosition s.position (selectDirection c g s.step rand).1,
        step := (selectDirection c g s.step rand).2 } := by
  unfold moveWithMemory selectDirection
  cases c g with
  | none => rfl
  | some best => by_cases h : s.step < best.length <;> simp [h]

theorem findPathAux_spec (g : Pos) :
    ∀ (fuel : Nat) (dirs : Nat → Dir) (pos : Pos) (path p : List Dir),
      findPathAux g dirs fuel pos path = some p →
      ∃ ext, p = path ++ ext ∧ 1 ≤ ext.length ∧ ext.length ≤ fuel ∧
        List.foldl movePosition pos ext = g ∧
        ∀ k, 1 ≤ k → k < ext.length → List.foldl movePosition pos (ext.take k) ≠ g := by
  intro fuel
  induction fuel with
  | zero =>
    intro dirs pos path p h
    simp [findPathAux] at h
  | succ fuel ih =>
    intro dirs pos path p h
    simp only [findPathAux] at h
    by_cases hg : movePosition pos (dirs 0) = g
    · rw [if_pos hg] at h
      refine ⟨[dirs 0], by simpa using h.symm, by simp, by simp, by simp [hg], ?_⟩
      intro k hk1 hk2
      simp at hk2
      omega
    · rw [if_neg hg] at h
      obtain ⟨ext, hp, h1, h2, h3, h4⟩ := ih (fun n => dirs (n + 1)) _ _ p h
      refine ⟨dirs 0 :: ext, by simpa using hp, by simp, by simp; omega, ?_, ?_⟩
      · simpa using h3
      · intro k hk1 hk2
        cases k with
        | zero => omega
        | succ k2 =>
          rw [List.take_succ_cons]
          simp only [List.foldl_cons]
          cases Nat.eq_zero_or_pos k2 with
          | inl h0 =>
            subst h0
            simpa using hg
          | inr hpos =>
            have := h4 k2 hpos (by simp at hk2; omega)
            simpa using this

/-- Claim C3: a discovery trial with step budget 100 (the source default)
terminates with at most 100 direction draws and either records a trial path
whose clamped replay from the origin ends exactly at the goal, or leaves the
cache untouched. -/
theorem discovery_trial_spec (dirs : Nat → Dir) (g : Pos) (c : Cache) :
    (trialPath dirs g 100 = none ∧ findSuccessfulPath dirs g 100 c = c) ∨
    (∃ p, trialPath dirs g 100 = some p ∧ 1 ≤ p.length ∧ p.length ≤ 100 ∧
      List.foldl movePosition (0, 0) p = g ∧
      findSuccessfulPath dirs g 100 c = recordPath c g p) := by
  cases htr : trialPath dirs g 100 with
  | none => exact Or.inl ⟨rfl, by simp [findSuccessfulPath, htr]⟩
  | some p =>
    obtain ⟨ext, hp, h1, h2, h3, _⟩ := findPathAux_spec g 100 dirs (0, 0) [] p htr
    simp only [List.nil_append] at hp
    subst hp
    exact Or.inr ⟨p, rfl, h1, h2, h3, by simp [findSuccessfulPath, htr]⟩

/-- Claim C10: the discovery trial checks the goal only after the first draw
is applied, so a recorded trial path always has length at least 1 and its
clamped replay from the origin ends at the goal; in particular a path for the
goal (0,0) is a genuine return to the origin, never the zero-step path. -/
theorem trial_path_nonempty (dirs : Nat → Dir) (g : Pos) (maxSteps : Nat) (p : List Dir)
    (h : trialPath dirs g maxSteps = some p) :
    1 ≤ p.length ∧ List.foldl movePosition (0, 0) p = g := by
  obtain ⟨ext, hp, h1, _, h3, _⟩ := findPathAux_spec g maxSteps dirs (0, 0) [] p h
  simp only [List.nil_append] at hp
  subst hp
  exact ⟨h1, h3⟩

theorem trial_path_nonempty_witness :
    trialPath (fun _ => Dir.up) ((0 : Int), (0 : Int)) 100 = some [Dir.up] ∧
    (1 ≤ [Dir.up].length ∧
      List.foldl movePosition (0, 0) [Dir.up] = ((0 : Int), (0 : Int))) :=
  ⟨by decide, trial_path_nonempty (fun _ => Dir.up) (0, 0) 100 [Dir.up] (by decide)⟩

theorem cursorAfter_eq (c : Cache) (g : Pos) (rands : Nat → Dir) (path : List Dir)
    (h : c g = some path) : ∀ i, i ≤ path.length → cursorAfter c g rands i = i := by
  intro i
  induction i with
  | zero => intro; rfl
  | succ i ih =>
    intro hle
    have hi : i < path.length := by omega
    rw [cursorAfter, ih (by omega)]
    unfold selectDirection
    rw [h]
    simp [hi]

/-- Claim C2: with a cached path of length L for the goal and the cursor at 0,
the first L `move_with_memory` calls return the cached directions in order and
advance the cursor by one each call; the (L+1)-th call, at cursor L, returns
the fresh random draw rather than anything from the cache. -/
theorem step_replay (c : Cache) (g : Pos) (path : List Dir) (rands : Nat → Dir)
    (h : c g = some path) :
    (∀ i, ∀ hi : i < path.length, cursorAfter c g rands i = i ∧
      callOutput c g rands i = path.get ⟨i, hi⟩) ∧
    cursorAfter c g rands path.length = path.length ∧
    callOutput c g rands path.length = rands path.length := by
  refine ⟨?_, cursorAfter_eq c g rands path h _ le_rfl, ?_⟩
  · intro i hi
    refine ⟨cursorAfter_eq c g rands path h i (le_of_lt hi), ?_⟩
    unfold callOutput
    rw [cursorAfter_eq c g rands path h i (le_of_lt hi)]
    unfold selectDirection
    rw [h]
    simp [hi]
  · unfold callOutput
    rw [cursorAfter_eq c g rands path h _ le_rfl]
    unfold selectDirection
    rw [h]
    simp

theorem step_replay_witness :
    callOutput (cacheWith ((1 : Int), (1 : Int)) [Dir.right, Dir.down]) (1, 1)
        (fun _ => Dir.up) 0 = Dir.right ∧
    callOutput (cacheWith ((1 : Int), (1 : Int)) [Dir.right, Dir.down]) (1, 1)
        (fun _ => Dir.up) 1 = Dir.down ∧
    callOutput (cacheWith ((1 : Int), (1 : Int)) [Dir.right, Dir.down]) (1, 1)
        (fun _ => Dir.up) 2 = Dir.up ∧
    cursorAfter (cacheWith ((1 : Int), (1 : Int)) [Dir.right, Dir.down]) (1, 1)
        (fun _ => Dir.up) 2 = 2 :=
  have H := step_replay (cacheWith ((1 : Int), (1 : Int)) [Dir.right, Dir.down]) (1, 1)
    [Dir.right, Dir.down] (fun _ => Dir.up) (by decide)
  ⟨(H.1 0 (by decide)).2, (H.1 1 (by decide)).2, H.2.2, H.2.1⟩

theorem navAfter_replay (c : Cache) (g : Pos) (rands : Nat → Dir) (p : List Dir)
    (h : c g = some p) :
    ∀ k, k ≤ p.length →
      navAfter c g rands k =
        { position := List.foldl movePosition (0, 0) (p.take k), step := k } := by
  intro k
  induction k with
  | zero => intro; rfl
  | succ k ih =>
    intro hk
    have hk2 : k < p.length := by omega
    rw [navAfter, ih (by omega)]
    unfold moveWithMemory
    rw [h]
    simp only [hk2, dif_pos]
    congr 1
    rw [List.take_succ, List.getElem?_eq_getElem hk2, Option.toList_some, List.foldl_append,
      List.foldl_cons, List.foldl_nil]
    rfl

/-- Claim C4: when the goal has a cache entry that was produced by a discovery
trial (as every entry in this program is), the navigator starting at the
origin with cursor 0 first stands on the goal exactly at the tick numbered by
the entry's length: the position equals the goal after that many
`move_with_memory` ticks and at no earlier tick. -/
theorem repeated_goal_reuse (c : Cache) (g : Pos) (dirs rands : Nat → Dir) (p : List Dir)
    (ht : trialPath dirs g 100 = some p) (hc : c g = some p) :
    (navAfter c g rands p.length).position = g ∧
    ∀ k, 1 ≤ k → k < p.length → (navAfter c g rands k).position ≠ g := by
  obtain ⟨ext, hp, h1, h2, h3, h4⟩ := findPathAux_spec g 100 dirs (0, 0) [] p ht
  simp only [List.nil_append] at hp
  subst hp
  constructor
  · rw [navAfter_replay c g rands p hc p.length le_rfl]
    simpa [List.take_length] using h3
  · intro k hk1 hk2
    rw [navAfter_replay c g rands p hc k (le_of_lt hk2)]
    simpa using h4 k hk1 hk2

theorem repeated_goal_reuse_witness :
    (navAfter (cacheWith ((2 : Int), (0 : Int)) [Dir.right, Dir.right]) (2, 0)
        (fun _ => Dir.up) 2).position = ((2 : Int), (0 : Int)) ∧
    (navAfter (cacheWith ((2 : Int), (0 : Int)) [Dir.right, Dir.right]) (2, 0)
        (fun _ => Dir.up) 1).position ≠ ((2 : Int), (0 : Int)) :=
  have H := repeated_goal_reuse (cacheWith ((2 : Int), (0 : Int)) [Dir.right, Dir.right])
    (2, 0) (fun _ => Dir.right) (fun _ => Dir.up) [Dir.right, Dir.right] (by decide) (by decide)
  ⟨H.1, H.2 1 (by decide) (by decide)⟩

theorem findSuccessfulPath_preserves_isSome (dirs : Nat → Dir) (g : Pos) (m : Nat) (c : Cache)
    (k : Pos) (h : (c k).isSome) : ((findSuccessfulPath dirs g m c) k).isSome := by
  unfold findSuccessfulPath
  cases trialPath dirs g m with
  | none => exact h
  | some p =>
    show ((recordPath c g p) k).isSome
    by_cases hkg : k = g
    · subst hkg
      exact recordPath_self_isSome c k p
    · rw [recordPath_other c g p k hkg]
      exact h

theorem ensureAux_count_le (g : Pos) :
    ∀ (fuel : Nat) (dirss : Nat → Nat → Dir) (c : Cache), (ensureAux g dirss fuel c).2 ≤ fuel := by
  intro fuel
  induction fuel with
  | zero => intro dirss c; simp [ensureAux]
  | succ fuel ih =>
    intro dirss c
    simp only [ensureAux]
    by_cases h : ((findSuccessfulPath (dirss 0) g 100 c) g).isSome
    · simp only [h, if_true]
      omega
    · simp only [h, Bool.false_eq_true, if_false]
      have := ih (fun n => dirss (n + 1)) (findSuccessfulPath (dirss 0) g 100 c)
      omega

theorem ensureAux_all_fail (g : Pos) :
    ∀ (fuel : Nat) (dirss : Nat → Nat → Dir) (c : Cache), c g = none →
      (∀ i, i < fuel → trialPath (dirss i) g 100 = none) →
      ensureAux g dirss fuel c = (c, fuel) := by
  intro fuel
  induction fuel with
  | zero => intro dirss c _ _; rfl
  | succ fuel ih =>
    intro dirss c hc hall
    have h0 : trialPath (dirss 0) g 100 = none := hall 0 (by omega)
    have hfind : findSuccessfulPath (dirss 0) g 100 c = c := by
      simp [findSuccessfulPath, h0]
    simp only [ensureAux, hfind, hc, Option.isSome_none, Bool.false_eq_true, if_false]
    rw [ih (fun n => dirss (n + 1)) c hc (fun i hi => hall (i + 1) (by omega))]

theorem ensureAux_early (g : Pos) :
    ∀ (j fuel : Nat) (dirss : Nat → Nat → Dir) (c : Cache), j < fuel → c g = none →
      (∀ i, i < j → trialPath (dirss i) g 100 = none) →
      (trialPath (dirss j) g 100).isSome →
      (ensureAux g dirss fuel c).2 = j + 1 ∧ ((ensureAux g dirss fuel c).1 g).isSome := by
  intro j
  induction j with
  | zero =>
    intro fuel dirss c hj hc hprev hsucc
    cases fuel with
    | zero => omega
    | succ f =>
      cases hp : trialPath (dirss 0) g 100 with
      | none => rw [hp] at hsucc; simp at hsucc
      | some p =>
        have hfind : findSuccessfulPath (dirss 0) g 100 c = recordPath c g p := by
          simp [findSuccessfulPath, hp]
        have hsome : ((findSuccessfulPath (dirss 0) g 100 c) g).isSome := by
          rw [hfind]
          exact recordPath_self_isSome c g p
        simp only [ensureAux, hsome, if_true]
        exact ⟨trivial, trivial⟩
  | succ j ih =>
    intro fuel dirss c hj hc hprev hsucc
    cases fuel with
    | zero => omega
    | succ f =>
      have h0 : trialPath (dirss 0) g 100 = none := hprev 0 (by omega)
      have hfind : findSuccessfulPath (dirss 0) g 100 c = c := by
        simp [findSuccessfulPath, h0]
      simp only [ensureAux, hfind, hc, Option.isSome_none, Bool.false_eq_true, if_false]
      obtain ⟨h1, h2⟩ := ih f (fun n => dirss (n + 1)) c (by omega) hc
        (fun i hi => hprev (i + 1) (by omega)) hsucc
      exact ⟨by rw [h1], h2⟩

theorem ensureAux_cached (g : Pos) (fuel : Nat) (dirss : Nat → Nat → Dir) (c : Cache)
    (hs : (c g).isSome) : (ensureAux g dirss (fuel + 1) c).2 = 1 := by
  have h2 : ((findSuccessfulPath (dirss 0) g 100 c) g).isSome :=
    findSuccessfulPath_preserves_isSome (dirss 0) g 100 c g hs
  simp only [ensureAux, h2, if_true]

theorem ensureAux_preserves_isSome (g : Pos) :
    ∀ (fuel : Nat) (dirss : Nat → Nat → Dir) (c : Cache) (k : Pos), (c k).isSome →
      ((ensureAux g dirss fuel c).1 k).isSome := by
  intro fuel
  induction fuel with
  | zero => intro dirss c k h; exact h
  | succ fuel ih =>
    intro dirss c k h
    have h2 : ((findSuccessfulPath (dirss 0) g 100 c) k).isSome :=
      findSuccessfulPath_preserves_isSome (dirss 0) g 100 c k h
    simp only [ensureAux]
    by_cases hg : ((findSuccessfulPath (dirss 0) g 100 c) g).isSome
    · simp only [hg, if_true]
      exact h2
    · simp only [hg, Bool.false_eq_true, if_false]
      exact ih (fun n => dirss (n + 1)) (findSuccessfulPath (dirss 0) g 100 c) k h2

/-- Claim C6: `ensure_path_for_goal` performs at most 1000 discovery attempts
and stops as soon as the goal is cached (one attempt when it already is; `j+1`
attempts when the first successful trial is attempt `j`); when every attempt's
trial fails and the goal had no entry, the cache is left exactly as it was —
no entry is created — and direction selection for that goal returns the fresh
random draw. -/
theorem ensure_bounded_fallback (dirss : Nat → Nat → Dir) (g : Pos) (c : Cache) :
    (ensurePathForGoal dirss g c).2 ≤ 1000 ∧
    ((c g).isSome → (ensurePathForGoal dirss g c).2 = 1) ∧
    (c g = none → (∀ i, i < 1000 → trialPath (dirss i) g 100 = none) →
      ensurePathForGoal dirss g c = (c, 1000) ∧
      ∀ cur rand, selectDirection (ensurePathForGoal dirss g c).1 g cur rand = (rand, cur)) ∧
    (∀ j, j < 1000 → c g = none → (∀ i, i < j → trialPath (dirss i) g 100 = none) →
      (trialPath (dirss j) g 100).isSome →
      (ensurePathForGoal dirss g c).2 = j + 1 ∧
        ((ensurePathForGoal dirss g c).1 g).isSome) := by
  refine ⟨ensureAux_count_le g 1000 dirss c, ?_, ?_, ?_⟩
  · intro hs
    exact ensureAux_cached g 999 dirss c hs
  · intro hc hall
    have hres : ensurePathForGoal dirss g c = (c, 1000) :=
      ensureAux_all_fail g 1000 dirss c hc hall
    refine ⟨hres, ?_⟩
    intro cur rand
    rw [hres]
    show selectDirection c g cur rand = (rand, cur)
    unfold selectDirection
    rw [hc]
  · intro j hj hc hprev hsucc
    exact ensureAux_early g j 1000 dirss c hj hc hprev hsucc

theorem ensure_bounded_fallback_witness :
    (ensurePathForGoal (fun _ _ => Dir.up) ((0 : Int), (0 : Int)) emptyCache).2 = 1 ∧
    ((ensurePathForGoal (fun _ _ => Dir.up) ((0 : Int), (0 : Int)) emptyCache).1
      ((0 : Int), (0 : Int))).isSome :=
  (ensure_bounded_fallback (fun _ _ => Dir.up) (0, 0) emptyCache).2.2.2 0 (by decide) rfl
    (fun i hi => absurd hi (Nat.not_lt_zero i)) (by decide)

theorem reachable_cursor_zero : ∀ s : SysState, Reachable s →
    s.cache s.goal = none → s.cursor = 0 := by
  intro s h
  induction h with
  | load g => intro; rfl
  | move s rand gNew _ ih =>
    intro hnone
    unfold tick at hnone ⊢
    by_cases hpos :
        (moveWithMemory s.cache s.goal { position := s.position, step := s.cursor } rand).position
          = s.goal
    · simp only [hpos, if_true]
      rfl
    · simp only [hpos, if_false] at hnone ⊢
      have hc0 : s.cursor = 0 := ih hnone
      unfold moveWithMemory
      rw [hnone]
      exact hc0
  | discover s dirss _ ih =>
    intro hnone
    unfold ensureStep at hnone ⊢
    simp only at hnone ⊢
    by_cases hcs : s.cache s.goal = none
    · exact ih hcs
    · exfalso
      have hs : (s.cache s.goal).isSome := Option.isSome_iff_ne_none.mpr hcs
      have hpre := ensureAux_preserves_isSome s.goal 1000 dirss s.cache s.goal hs
      unfold ensurePathForGoal at hnone
      rw [hnone] at hpre
      simp at hpre

/-- Claim C7: the replay cursor is 0 in every reachable state whose current
goal has no cache entry, and whenever a tick changes the goal (a reset, hence
a new episode) the cursor of the new state is 0. -/
theorem cursor_reset_rule (s : SysState) (h : Reachable s) :
    (s.cache s.goal = none → s.cursor = 0) ∧
    (∀ rand gNew, (tick s rand gNew).goal ≠ s.goal → (tick s rand gNew).cursor = 0) := by
  refine ⟨reachable_cursor_zero s h, ?_⟩
  intro rand gNew hg
  unfold tick at hg ⊢
  by_cases hpos :
      (moveWithMemory s.cache s.goal { position := s.position, step := s.cursor } rand).position
        = s.goal
  · simp only [hpos, if_true]
    rfl
  · simp only [hpos, if_false] at hg
    exact absurd rfl hg

theorem cursor_reset_rule_witness :
    ({ position := (0, 0), goal := (0, 0), cursor := 0, cache := emptyCache } : SysState).cursor
        = 0 ∧
    (tick ({ position := (0, 0), goal := (0, 0), cursor := 0, cache := emptyCache } : SysState)
        Dir.up ((5 : Int), (5 : Int))).cursor = 0 :=
  ⟨(cursor_reset_rule _ (Reachable.load (0, 0))).1 rfl,
    (cursor_reset_rule _ (Reachable.load (0, 0))).2 Dir.up (5, 5) (by decide)⟩
